import Mathlib

set_option maxRecDepth 40000

/-!
Verification development for the GitHub analysis dashboard repository.

This file gives a shallow embedding, in Lean 4, of the core utility modules of
the repository — the in-memory LRU `CacheManager`, the gzip-based
`DataCompressor`, the `HtmlBundler` and the `DataProcessor` statistics — and
proves (or refutes) the testable properties stated in the repository's design
specification.

Modelling conventions:
* JavaScript values that flow through `JSON.stringify` are modelled by the
  inductive type `JsValue` (numbers are modelled as integers).
* JavaScript `Map` objects are modelled as association lists in insertion
  order; `Map.set` updates in place when the key exists and appends otherwise,
  `Map.delete` removes the key, and iteration order is list order, exactly as
  in the ECMAScript specification.
* `Date.now()` is passed in explicitly as an integer timestamp argument.
* External platform functions that are not part of the repository (zlib's
  gzip/gunzip, `Buffer`'s base64 codec, `JSON.parse`, the regex engine) are
  passed in as explicit function parameters; theorems about them take their
  documented round-trip contracts as hypotheses.
-/

/-- Model of a JSON-serializable JavaScript value. Numbers are modelled as
integers (the repository's payload sizes, counters and timestamps are
integral). -/
inductive JsValue where
  | null : JsValue
  | bool : Bool → JsValue
  | num : Int → JsValue
  | str : String → JsValue
  | arr : List JsValue → JsValue
  | obj : List (String × JsValue) → JsValue
deriving Repr

/-- JavaScript truthiness of a value: `null`, `false`, `0` and the empty
string are falsy; arrays and objects are always truthy. -/
def jsTruthy : JsValue → Bool
  | JsValue.null => false
  | JsValue.bool b => b
  | JsValue.num n => decide (n ≠ 0)
  | JsValue.str s => decide (s ≠ "")
  | JsValue.arr _ => true
  | JsValue.obj _ => true

/-- JavaScript `typeof v === 'object'`: true for `null` (a JS quirk), arrays
and objects, false for booleans, numbers and strings. -/
def jsTypeofIsObject : JsValue → Bool
  | JsValue.null => true
  | JsValue.arr _ => true
  | JsValue.obj _ => true
  | _ => false

/-- Escape of a single character inside a JSON string literal, as produced by
`JSON.stringify` (ordinary characters are kept; quotes and backslashes are
escaped). -/
def jsonEscapeChar (c : Char) : String :=
  if c = '"' then "\\\"" else if c = '\\' then "\\\\" else String.singleton c

/-- JSON string literal for `s`, as produced by `JSON.stringify`. -/
def jsonQuote (s : String) : String :=
  "\"" ++ String.join (s.data.map jsonEscapeChar) ++ "\""

mutual

/-- Model of `JSON.stringify` on `JsValue` (no spacing, fields in object
order, exactly as JavaScript serializes plain data). -/
def jsonStringify : JsValue → String
  | JsValue.null => "null"
  | JsValue.bool true => "true"
  | JsValue.bool false => "false"
  | JsValue.num n => toString n
  | JsValue.str s => jsonQuote s
  | JsValue.arr xs => "[" ++ jsonStringifyList xs ++ "]"
  | JsValue.obj fs => "\x7b" ++ jsonStringifyFields fs ++ "\x7d"

/-- Comma-separated serialization of the elements of a JSON array. -/
def jsonStringifyList : List JsValue → String
  | [] => ""
  | [x] => jsonStringify x
  | x :: y :: rest => jsonStringify x ++ "," ++ jsonStringifyList (y :: rest)

/-- Comma-separated serialization of the fields of a JSON object. -/
def jsonStringifyFields : List (String × JsValue) → String
  | [] => ""
  | [(k, v)] => jsonQuote k ++ ":" ++ jsonStringify v
  | (k, v) :: f :: rest =>
      jsonQuote k ++ ":" ++ jsonStringify v ++ "," ++ jsonStringifyFields (f :: rest)

end

/-- Number of UTF-8 bytes used to encode one character. -/
def utf8CharSize (c : Char) : Nat :=
  if c.toNat < 0x80 then 1
  else if c.toNat < 0x800 then 2
  else if c.toNat < 0x10000 then 3
  else 4

/-- Model of Node's `Buffer.byteLength(s, 'utf8')`. -/
def utf8ByteLength (s : String) : Nat :=
  (s.data.map utf8CharSize).sum

/-! ## JavaScript `Map` as an association list -/

/-- Model of `Map.prototype.get`: the value stored under `k`, if present. -/
def mapGet (k : String) (l : List (String × α)) : Option α :=
  (l.find? (fun p => p.1 = k)).map Prod.snd

/-- Model of `Map.prototype.delete`'s effect on the entry list: the entry
under `k` is removed (on a well-formed map there is at most one). -/
def mapDelete (k : String) (l : List (String × α)) : List (String × α) :=
  l.filter (fun p => p.1 ≠ k)

/-- Model of `Map.prototype.set`'s effect on the entry list: an existing key
is updated in place, a new key is appended at the end of iteration order. -/
def mapSet (k : String) (v : α) : List (String × α) → List (String × α)
  | [] => [(k, v)]
  | (k', v') :: rest => if k' = k then (k, v) :: rest else (k', v') :: mapSet k v rest

/-- Keys of the map, in iteration order. -/
def mapKeys (l : List (String × α)) : List String :=
  l.map Prod.fst

/-! ## CacheManager -/

/-- One cache entry, as built by `CacheManager.set`. -/
structure CacheEntry where
  data : JsValue
  size : Nat
  expiresAt : Int
  createdAt : Int
deriving Repr

/-- State of a `CacheManager` instance: the `Map` of entries in insertion
(= recency) order together with the tracked size and hit/miss counters. -/
structure CacheState where
  cache : List (String × CacheEntry)
  maxSize : Nat
  currentSize : Int
  hitCount : Nat
  missCount : Nat
  defaultTTL : Int
deriving Repr

/-- State of a freshly constructed `CacheManager` with the given capacity. -/
def CacheState.init (maxSize : Nat) : CacheState :=
  { cache := [], maxSize := maxSize, currentSize := 0,
    hitCount := 0, missCount := 0, defaultTTL := 300000 }

namespace CacheManager

/-- Model of `CacheManager.delete`: removes the entry if present and
decrements the tracked size; returns whether an entry was removed. -/
def delete (s : CacheState) (key : String) : Bool × CacheState :=
  match mapGet key s.cache with
  | some entry =>
      (true, { s with currentSize := s.currentSize - entry.size,
                      cache := mapDelete key s.cache })
  | none => (false, s)

/-- Model of `CacheManager.get` at time `now`: a missing key is a miss; an
entry past its `expiresAt` is deleted and counted as a miss; a live entry is
moved to the most-recently-used position (delete then re-insert at the end)
and counted as a hit. -/
def get (s : CacheState) (key : String) (now : Int) : Option JsValue × CacheState :=
  match mapGet key s.cache with
  | none => (none, { s with missCount := s.missCount + 1 })
  | some entry =>
      if entry.expiresAt < now then
        let s' := (delete s key).2
        (none, { s' with missCount := s'.missCount + 1 })
      else
        (some entry.data,
         { s with cache := mapSet key entry (mapDelete key s.cache),
                  hitCount := s.hitCount + 1 })

/-- Body of the `while` loop in `CacheManager.set`: while the new entry does
not fit and the cache is non-empty, delete the first (least-recently-used)
key. Every iteration removes at least one entry, so the loop runs at most
`s.cache.length` times; the recursion is fuelled by that bound (see
`evictLoop`) to keep it structurally recursive — the fuel can never be
exhausted before the loop condition turns false. -/
def evictGo : Nat → CacheState → Nat → CacheState
  | 0, s, _ => s
  | fuel + 1, s, dataSize =>
      if h : s.currentSize + dataSize > s.maxSize ∧ 0 < s.cache.length then
        evictGo fuel (delete s (s.cache.head (List.length_pos.mp h.2)).1).2 dataSize
      else s

/-- Model of the eviction `while` loop of `CacheManager.set`. -/
def evictLoop (s : CacheState) (dataSize : Nat) : CacheState :=
  evictGo s.cache.length s dataSize

/-- Model of `CacheManager.set` at time `now`: measures the serialized size,
rejects entries larger than the whole cache, removes any existing entry under
the key, evicts least-recently-used entries until the new entry fits, then
inserts the new entry at the most-recently-used position. -/
def set (s : CacheState) (key : String) (data : JsValue) (ttl : Int) (now : Int) :
    Bool × CacheState :=
  let dataSize := utf8ByteLength (jsonStringify data)
  if dataSize > s.maxSize then (false, s)
  else
    let s1 := if (mapGet key s.cache).isSome then (delete s key).2 else s
    let s2 := evictLoop s1 dataSize
    let entry : CacheEntry :=
      { data := data, size := dataSize, expiresAt := now + ttl, createdAt := now }
    (true, { s2 with cache := mapSet key entry s2.cache,
                     currentSize := s2.currentSize + dataSize })

/-- Model of `CacheManager.clear`: empties the cache and resets counters. -/
def clear (s : CacheState) : CacheState :=
  { s with cache := [], currentSize := 0, hitCount := 0, missCount := 0 }

/-- Model of `CacheManager.evictExpired` at time `now`: collects the expired
keys, then deletes each; returns how many were collected. -/
def evictExpired (s : CacheState) (now : Int) : Nat × CacheState :=
  let keysToDelete := mapKeys (s.cache.filter (fun p => p.2.expiresAt < now))
  (keysToDelete.length, keysToDelete.foldl (fun st k => (delete st k).2) s)

/-- Model of `CacheManager.deletePattern`. The source first runs
`new RegExp(pattern)` — the external constructor, passed in as
`regexCompile`, which fails (`none`, a JS `SyntaxError`) on a syntactically
invalid pattern string such as `"("`. The call is not guarded, so a
compilation failure propagates out of `deletePattern`, modelled as
`Except.error ()`; it occurs before any mutation. On success the keys
matching the compiled regex's `test` are collected, then deleted, and their
number returned. -/
def deletePattern (regexCompile : String → Option (String → Bool)) (s : CacheState)
    (pattern : String) : Except Unit (Nat × CacheState) :=
  match regexCompile pattern with
  | none => Except.error ()
  | some test =>
      let keysToDelete := (mapKeys s.cache).filter test
      Except.ok (keysToDelete.length, keysToDelete.foldl (fun st k => (delete st k).2) s)

/-- Ordering of parameter fields by key name, as done by `generateKey`'s
`Object.keys(params).sort()` rebuild. -/
def sortParams (params : List (String × JsValue)) : List (String × JsValue) :=
  (params.map Prod.fst).mergeSort (fun a b => decide (a ≤ b)) |>.filterMap
    (fun k => (mapGet k params).map (fun v => (k, v)))

/-- Model of `CacheManager.generateKey`: the namespace, a colon, and the
JSON serialization of the parameters with keys sorted. -/
def generateKey (type : String) (params : List (String × JsValue)) : String :=
  type ++ ":" ++ jsonStringify (JsValue.obj (sortParams params))

/-- Result record of `CacheManager.getStats` (the two displayed percentages
are kept as exact rationals; the source formats them with `toFixed(2)`). -/
structure Stats where
  size : Nat
  currentSize : Int
  maxSize : Nat
  hitCount : Nat
  missCount : Nat
  hitRate : Rat
  utilization : Rat
deriving Repr

/-- Model of `CacheManager.getStats`. -/
def getStats (s : CacheState) : Stats :=
  let totalRequests := s.hitCount + s.missCount
  { size := s.cache.length,
    currentSize := s.currentSize,
    maxSize := s.maxSize,
    hitCount := s.hitCount,
    missCount := s.missCount,
    hitRate := if totalRequests > 0 then (s.hitCount : Rat) / totalRequests * 100 else 0,
    utilization := (s.currentSize : Rat) / (s.maxSize : Rat) * 100 }

end CacheManager

/-- Sum of the stored `size` fields of the entries currently in the cache. -/
def sumSizes (l : List (String × CacheEntry)) : Int :=
  (l.map (fun p => (p.2.size : Int))).sum

/-- Keys of the entry list are pairwise distinct — automatic for a JavaScript
`Map`, an invariant of the association-list model. -/
def keysNodup (l : List (String × CacheEntry)) : Prop :=
  (mapKeys l).Nodup

instance (l : List (String × CacheEntry)) : Decidable (keysNodup l) := by
  unfold keysNodup; infer_instance

/-- Well-formedness of a cache state: distinct keys (a `Map` property) and
exact size accounting (the spec's tracked-size invariant). -/
def CacheState.wf (s : CacheState) : Prop :=
  keysNodup s.cache ∧ s.currentSize = sumSizes s.cache

instance (s : CacheState) : Decidable s.wf := by
  unfold CacheState.wf; infer_instance

/-- One mutating `CacheManager` operation, with its `Date.now()` reading where
the source consults the clock. A `deletePattern` operation carries the raw
pattern string together with the external `RegExp` constructor it is
compiled by. -/
inductive CacheOp where
  | setOp (key : String) (data : JsValue) (ttl : Int) (now : Int)
  | getOp (key : String) (now : Int)
  | deleteOp (key : String)
  | deletePatternOp (regexCompile : String → Option (String → Bool)) (pattern : String)
  | evictExpiredOp (now : Int)
  | clearOp

/-- Effect of one operation on the cache state. A `deletePattern` whose
pattern fails to compile throws before any mutation, so the cache state at
the moment of the exception is unchanged. -/
def runOp (s : CacheState) : CacheOp → CacheState
  | CacheOp.setOp key data ttl now => (CacheManager.set s key data ttl now).2
  | CacheOp.getOp key now => (CacheManager.get s key now).2
  | CacheOp.deleteOp key => (CacheManager.delete s key).2
  | CacheOp.deletePatternOp regexCompile pattern =>
      match CacheManager.deletePattern regexCompile s pattern with
      | Except.error _ => s
      | Except.ok r => r.2
  | CacheOp.evictExpiredOp now => (CacheManager.evictExpired s now).2
  | CacheOp.clearOp => CacheManager.clear s

/-- State after a sequence of operations. -/
def runOps (s : CacheState) (ops : List CacheOp) : CacheState :=
  ops.foldl runOp s

/-- Spec-side description of LRU eviction, following the spec's words: evict
least-recently-used entries (the oldest in iteration order, not touched
since — i.e. the front of the recency list) one at a time until there is room
for an entry of size `need`, given capacity `cap` and current size `cur`.
Returns the surviving recency list and the resulting size. -/
def specLruEvict (cap : Nat) (need : Nat) :
    List (String × CacheEntry) → Int → List (String × CacheEntry) × Int
  | [], cur => ([], cur)
  | (k, e) :: rest, cur =>
      if cur + need > cap then specLruEvict cap need rest (cur - e.size)
      else ((k, e) :: rest, cur)

/-- Entry built by `CacheManager.set` for `data` with the given TTL at time
`now`, with its measured serialized size. -/
def mkEntry (data : JsValue) (ttl now : Int) : CacheEntry :=
  { data := data, size := utf8ByteLength (jsonStringify data),
    expiresAt := now + ttl, createdAt := now }

/-- Spec-side description of `set`'s effect on the entry list, following the
spec's words: remove any existing entry under the key (adjusting the running
size), evict least-recently-used entries one at a time until there is room,
then insert the new entry as most-recently-used (at the end of the recency
order). -/
def specLruSetCache (s : CacheState) (key : String) (e : CacheEntry) :
    List (String × CacheEntry) :=
  let removed := mapDelete key s.cache
  let cur : Int :=
    match mapGet key s.cache with
    | some old => s.currentSize - (old.size : Int)
    | none => s.currentSize
  (specLruEvict s.maxSize e.size removed cur).1 ++ [(key, e)]

/-- Payload of the spec's example scenario: a 398-character string, whose
JSON serialization occupies exactly 400 bytes. -/
def payload400 : JsValue := JsValue.str (String.mk (List.replicate 398 'x'))

/-- State of a 1000-byte cache after inserting A(400B) then B(400B) at time
0, as in the spec's example scenario. -/
def scenarioAB : CacheState :=
  (CacheManager.set
    ((CacheManager.set (CacheState.init 1000) "A" payload400 300000 0).2)
    "B" payload400 300000 0).2

/-! ## DataCompressor -/

/-- Cumulative statistics of a `DataCompressor` instance (`this.stats`). -/
structure CompressorStats where
  compressed : Nat
  decompressed : Nat
  totalOriginalSize : Nat
  totalCompressedSize : Nat
deriving Repr, DecidableEq

/-- Statistics of a freshly constructed compressor. -/
def CompressorStats.init : CompressorStats :=
  { compressed := 0, decompressed := 0, totalOriginalSize := 0, totalCompressedSize := 0 }

/-- Modelled from the spec: the external platform functions called by the
compressor but not defined in the repository — zlib's `gzip`/`gunzip` at the
configured options, Node `Buffer`'s base64 codec, and `JSON.parse`. The
fallible directions return `Option`; theorems assume their documented
round-trip contracts as hypotheses where needed. -/
structure JsPlatform where
  gzipBytes : String → List Nat
  gunzipBytes : List Nat → Option String
  b64enc : List Nat → String
  b64dec : String → Option (List Nat)
  jsonParse : String → Option JsValue

/-- Envelope produced by `DataCompressor.compress`: `data` carries either the
original value (`compressed = false`) or the base64 string of the gzip output
(`compressed = true`). Metadata fields absent in a branch of the source are
`none`; the wall-clock `compressionTimestamp` of the compressed branch is not
modelled. -/
structure Envelope where
  compressed : Bool
  data : JsValue
  originalSize : Option Nat
  compressedSize : Option Nat
  compressionRatio : Option Rat
deriving Repr

/-- The compressor's minimum-size threshold: payloads below 1 KB are not
compressed unless forced. -/
def minCompressionSize : Nat := 1024

namespace DataCompressor

/-- Model of `DataCompressor.compress`. A JS-falsy `data` returns
`{compressed: false, data: null}` immediately; otherwise the value is
serialized and measured; below the 1 KB threshold (unless forced) the
original data is returned uncompressed; otherwise it is gzipped, and a
compression ratio under 1.2 (unless forced) again returns the original
uncompressed; otherwise the base64 of the gzip bytes is returned with
`compressed = true` and the cumulative statistics are updated. The source's
floating-point `1.2` cutoff is modelled as the rational `6/5`; a
zero-length gzip output would make the modelled ratio `0` where JS produces
`Infinity`, a case no gzip implementation produces. -/
def compress (rt : JsPlatform) (st : CompressorStats) (data : JsValue)
    (forceCompress : Bool) : CompressorStats × Envelope :=
  if jsTruthy data = false then
    (st, { compressed := false, data := JsValue.null,
           originalSize := none, compressedSize := none, compressionRatio := none })
  else
    let jsonString := jsonStringify data
    let originalSize := utf8ByteLength jsonString
    if forceCompress = false ∧ originalSize < minCompressionSize then
      (st, { compressed := false, data := data, originalSize := some originalSize,
             compressedSize := some originalSize, compressionRatio := some 1 })
    else
      let compressedBytes := rt.gzipBytes jsonString
      let compressedSize := compressedBytes.length
      let compressionRatio : Rat := (originalSize : Rat) / (compressedSize : Rat)
      if forceCompress = false ∧ compressionRatio < 6 / 5 then
        (st, { compressed := false, data := data, originalSize := some originalSize,
               compressedSize := some originalSize, compressionRatio := some 1 })
      else
        ({ st with compressed := st.compressed + 1,
                   totalOriginalSize := st.totalOriginalSize + originalSize,
                   totalCompressedSize := st.totalCompressedSize + compressedSize },
         { compressed := true, data := JsValue.str (rt.b64enc compressedBytes),
           originalSize := some originalSize, compressedSize := some compressedSize,
           compressionRatio := some compressionRatio })

/-- Model of `DataCompressor.decompress` on an envelope. An uncompressed
envelope returns its `data` unchanged. A compressed envelope is base64
decoded, gunzipped and JSON-parsed, bumping the `decompressed` counter; if
any step fails (the source's catch block), the `data` field is returned
as-is when `typeof data === 'object'` and otherwise the error propagates,
modelled as `Except.error ()`. -/
def decompress (rt : JsPlatform) (st : CompressorStats) (env : Envelope) :
    CompressorStats × Except Unit JsValue :=
  if env.compressed = false then (st, Except.ok env.data)
  else
    let fallback : CompressorStats × Except Unit JsValue :=
      if jsTypeofIsObject env.data then (st, Except.ok env.data)
      else (st, Except.error ())
    match env.data with
    | JsValue.str s =>
        match rt.b64dec s with
        | none => fallback
        | some bytes =>
            match rt.gunzipBytes bytes with
            | none => fallback
            | some jsonString =>
                match rt.jsonParse jsonString with
                | none => fallback
                | some v =>
                    ({ st with decompressed := st.decompressed + 1 }, Except.ok v)
    | _ => fallback

end DataCompressor

/-- Concrete platform fixture for witnesses: an invertible stand-in codec
(character codes for the gzip bytes, the inverse mapping for base64) and a
JSON parser sufficient for the witness values. -/
def witnessPlatform : JsPlatform :=
  { gzipBytes := fun s => s.data.map Char.toNat
    gunzipBytes := fun l => some (String.mk (l.map Char.ofNat))
    b64enc := fun l => String.mk (l.map Char.ofNat)
    b64dec := fun s => some (s.data.map Char.toNat)
    jsonParse := fun s => if s = "[]" then some (JsValue.arr []) else none }

/-! ## HtmlBundler -/

/-- Whitespace class of the JavaScript regex `\s` (the ASCII part, which is
all that the bundled text uses). -/
def isJsSpace (c : Char) : Bool :=
  c = ' ' || c = '\t' || c = '\n' || c = '\r' || c = '\x0b' || c = '\x0c'

/-- Characters of `s` with everything the JS `trim()` removes stripped from
both ends. -/
def trimChars (l : List Char) : List Char :=
  ((l.dropWhile isJsSpace).reverse.dropWhile isJsSpace).reverse

/-- Bool test for `pre.isPrefixOf l`, modelling `String.startsWith`. -/
def strStartsWith (s pre : String) : Bool :=
  pre.data.isPrefixOf s.data

/-- Suffix of `l` after the first occurrence of `*/`, when one exists. -/
def findCommentClose : List Char → Option (List Char)
  | '*' :: '/' :: rest => some rest
  | _ :: rest => findCommentClose rest
  | [] => none

/-- Scanner for the regex replace of lazy block comments
(`/\*[\s\S]*?\*\///g`): each `/*` with a matching `*/` is dropped together
with its content; a `/*` with no close has no match and is kept, as the lazy
regex then fails. One unit of fuel is spent per emitted or skipped chunk, so
the input length is always enough fuel. -/
def stripBlockCommentsGo : Nat → List Char → List Char
  | 0, l => l
  | _, [] => []
  | fuel + 1, '/' :: '*' :: rest =>
      match findCommentClose rest with
      | some tail => stripBlockCommentsGo fuel tail
      | none => '/' :: '*' :: rest
  | fuel + 1, a :: rest => a :: stripBlockCommentsGo fuel rest

/-- Block-comment removal (`/\*[\s\S]*?\*\//g` → empty). -/
def stripBlockComments (l : List Char) : List Char :=
  stripBlockCommentsGo l.length l

/-- Line-comment removal (`//.*$` per line): from `//` to the end of the
line, keeping the newline (`.` does not match it). -/
def stripLineCommentsGo : Nat → List Char → List Char
  | 0, l => l
  | _, [] => []
  | fuel + 1, '/' :: '/' :: rest =>
      stripLineCommentsGo fuel (rest.dropWhile (fun c => !(c = '\n')))
  | fuel + 1, a :: rest => a :: stripLineCommentsGo fuel rest

/-- Line-comment removal at full fuel. -/
def stripLineComments (l : List Char) : List Char :=
  stripLineCommentsGo l.length l

/-- Whitespace-run collapse (`\s+` → one space). -/
def collapseWsGo : Nat → List Char → List Char
  | 0, l => l
  | _, [] => []
  | fuel + 1, a :: rest =>
      if isJsSpace a then ' ' :: collapseWsGo fuel (rest.dropWhile isJsSpace)
      else a :: collapseWsGo fuel rest

/-- Whitespace-run collapse at full fuel. -/
def collapseWs (l : List Char) : List Char :=
  collapseWsGo l.length l

/-- Removal of whitespace after a given punctuation character (the CSS
minifier's `X\s*` → `X` replacements for `X` one of `{` `;` `,` `:`). -/
def collapseAfterGo (c : Char) : Nat → List Char → List Char
  | 0, l => l
  | _, [] => []
  | fuel + 1, a :: rest =>
      if a = c then a :: collapseAfterGo c fuel (rest.dropWhile isJsSpace)
      else a :: collapseAfterGo c fuel rest

/-- Punctuation whitespace removal at full fuel. -/
def collapseAfter (c : Char) (l : List Char) : List Char :=
  collapseAfterGo c l.length l

/-- The CSS minifier's `;\s*}` → `}` replacement. -/
def cssSemiBraceGo : Nat → List Char → List Char
  | 0, l => l
  | _, [] => []
  | fuel + 1, a :: rest =>
      if a = ';' then
        match rest.dropWhile isJsSpace with
        | '\x7d' :: tail => '\x7d' :: cssSemiBraceGo fuel tail
        | _ => ';' :: cssSemiBraceGo fuel rest
      else a :: cssSemiBraceGo fuel rest

/-- The `;\s*}` replacement at full fuel. -/
def cssSemiBrace (l : List Char) : List Char :=
  cssSemiBraceGo l.length l

/-- Suffix of `l` after the first occurrence of `-->`, when one exists. -/
def findHtmlCommentClose : List Char → Option (List Char)
  | '-' :: '-' :: '>' :: rest => some rest
  | _ :: rest => findHtmlCommentClose rest
  | [] => none

/-- HTML comment removal (`<!--[\s\S]*?-->` → empty), lazy as in the
source's regex: an unterminated `<!--` is kept. -/
def stripHtmlCommentsGo : Nat → List Char → List Char
  | 0, l => l
  | _, [] => []
  | fuel + 1, '<' :: '!' :: '-' :: '-' :: rest =>
      match findHtmlCommentClose rest with
      | some tail => stripHtmlCommentsGo fuel tail
      | none => '<' :: '!' :: '-' :: '-' :: rest
  | fuel + 1, a :: rest => a :: stripHtmlCommentsGo fuel rest

/-- HTML comment removal at full fuel. -/
def stripHtmlComments (l : List Char) : List Char :=
  stripHtmlCommentsGo l.length l

/-- Inter-tag whitespace removal (`>\s+<` → `><`): a `>` followed by at least
one whitespace character and then `<` drops the whitespace. -/
def collapseBetweenTagsGo : Nat → List Char → List Char
  | 0, l => l
  | _, [] => []
  | fuel + 1, '>' :: rest =>
      let rest' := rest.dropWhile isJsSpace
      if rest'.length < rest.length then
        match rest' with
        | '<' :: tail => '>' :: '<' :: collapseBetweenTagsGo fuel tail
        | _ => '>' :: collapseBetweenTagsGo fuel rest
      else '>' :: collapseBetweenTagsGo fuel rest
  | fuel + 1, a :: rest => a :: collapseBetweenTagsGo fuel rest

/-- Inter-tag whitespace removal at full fuel. -/
def collapseBetweenTags (l : List Char) : List Char :=
  collapseBetweenTagsGo l.length l

/-- Per-line edge-whitespace removal (`^\s+|\s+$` with the `m` flag). -/
def trimLines (l : List Char) : List Char :=
  List.intercalate ['\n'] ((l.splitOn '\n').map trimChars)

/-- Suffix of `l` strictly after its last newline. -/
def afterLastNl (l : List Char) : List Char :=
  (l.reverse.takeWhile (fun c => !(c = '\n'))).reverse

/-- Blank-line collapse (`\n\s*\n` → `\n`, greedy `\s*`): a newline followed
by a whitespace run containing another newline collapses, with the match
ending at the last newline of the run. -/
def collapseBlankLinesGo : Nat → List Char → List Char
  | 0, l => l
  | _, [] => []
  | fuel + 1, '\n' :: rest =>
      let run := rest.takeWhile isJsSpace
      if run.contains '\n' then
        '\n' :: collapseBlankLinesGo fuel (afterLastNl run ++ rest.dropWhile isJsSpace)
      else '\n' :: collapseBlankLinesGo fuel rest
  | fuel + 1, a :: rest => a :: collapseBlankLinesGo fuel rest

/-- Blank-line collapse at full fuel. -/
def collapseBlankLines (l : List Char) : List Char :=
  collapseBlankLinesGo l.length l

/-- First-occurrence substring replacement, as the JS
`String.prototype.replace` with a plain-string pattern. -/
def replaceFirstChars (pat rep : List Char) : Nat → List Char → List Char
  | 0, l => l
  | _, [] => []
  | fuel + 1, a :: rest =>
      if pat.isPrefixOf (a :: rest) then rep ++ (a :: rest).drop pat.length
      else a :: replaceFirstChars pat rep fuel rest

/-- First-occurrence substring replacement on strings. -/
def replaceFirst (s pat rep : String) : String :=
  String.mk (replaceFirstChars pat.data rep.data s.data.length s.data)

/-- Bool substring test. -/
def hasSubstrGo (pat : List Char) : Nat → List Char → Bool
  | 0, l => pat.isPrefixOf l
  | fuel + 1, l =>
      if pat.isPrefixOf l then true
      else
        match l with
        | [] => false
        | _ :: rest => hasSubstrGo pat fuel rest

/-- Whether `pat` occurs as a substring of `s`. -/
def strHasSubstr (s pat : String) : Bool :=
  hasSubstrGo pat.data s.data.length s.data

/-- The bundler's optimization option record, with its constructor
defaults: HTML and CSS minification on, JS minification off (kept readable),
image inlining on, CDN links preserved. -/
structure BundlerOptions where
  minifyHtml : Bool
  minifyCss : Bool
  minifyJs : Bool
  compressImages : Bool
  removeCDNLinks : Bool
deriving Repr, DecidableEq

/-- Modelled from the source's regex-scanned view of the entry document: the
stylesheet `<link>` tags, the `<script src>` tags and the `<img>` tags that
the scan regexes of `processHtml`/`inlineImages` match become items carrying
their `href`/`src` and original tag text; all surrounding markup is `text`.
The source replaces a scanned tag string by its inlined form in place
(`String.replace(originalTag, inlinedTag)`), which the item list renders
positionally. -/
inductive HtmlItem where
  | text (s : String)
  | cssLink (href : String) (tag : String)
  | scriptSrcTag (src : String) (tag : String)
  | imgTag (src : String) (tag : String)
deriving Repr

namespace HtmlBundler

/-- The constructor's option defaults. -/
def defaultOptions : BundlerOptions :=
  { minifyHtml := true, minifyCss := true, minifyJs := false,
    compressImages := true, removeCDNLinks := false }

/-- Model of `HtmlBundler.minifyCss`: the source's regex pipeline — strip
block comments, collapse whitespace runs, drop whitespace in `;\s*}`,
`{\s*`, `;\s*`, `,\s*` and `:\s*`, then trim. -/
def minifyCss (css : String) : String :=
  let s1 := stripBlockComments css.data
  let s2 := collapseWs s1
  let s3 := cssSemiBrace s2
  let s4 := collapseAfter '\x7b' s3
  let s5 := collapseAfter ';' s4
  let s6 := collapseAfter ',' s5
  let s7 := collapseAfter ':' s6
  String.mk (trimChars s7)

/-- Model of `HtmlBundler.minifyJs`: strip line comments, strip block
comments, collapse whitespace runs, trim. -/
def minifyJs (js : String) : String :=
  String.mk (trimChars (collapseWs (stripBlockComments (stripLineComments js.data))))

/-- Model of `HtmlBundler.minifyHtml`: strip HTML comments, drop inter-tag
whitespace, trim every line, collapse blank lines, trim. -/
def minifyHtml (html : String) : String :=
  let s1 := stripHtmlComments html.data
  let s2 := collapseBetweenTags s1
  let s3 := trimLines s2
  let s4 := collapseBlankLines s3
  String.mk (trimChars s4)

/-- Model of `HtmlBundler.inlineCss`: read the referenced stylesheet through
the filesystem map (rooted at the bundler's public directory) and produce
the inline `<style>` replacement; a read failure is caught in the source
(warning logged, `null` returned), modelled as `none`. -/
def inlineCss (fsRead : String → Option String) (opts : BundlerOptions)
    (cssPath : String) : Option String :=
  match fsRead cssPath with
  | some cssContent =>
      let optimizedCss := if opts.minifyCss then minifyCss cssContent else cssContent
      some ("<style>\n" ++ optimizedCss ++ "\n</style>")
  | none => none

/-- Model of `HtmlBundler.inlineJs`, analogous to `inlineCss`. -/
def inlineJs (fsRead : String → Option String) (opts : BundlerOptions)
    (jsPath : String) : Option String :=
  match fsRead jsPath with
  | some jsContent =>
      let optimizedJs := if opts.minifyJs then minifyJs jsContent else jsContent
      some ("<script>\n" ++ optimizedJs ++ "\n</script>")
  | none => none

/-- Model of `path.extname` on the bundler's image paths: the suffix of the
last path component from its last dot, or empty for dotless and dotfile
names. -/
def extname (p : String) : String :=
  let base := (p.data.reverse.takeWhile (fun c => !(c = '/'))).reverse
  let ext := (base.reverse.takeWhile (fun c => !(c = '.'))).reverse
  if base.contains '.' = false then ""
  else if base.length = ext.length + 1 ∧ base.head? = some '.' then ""
  else "." ++ String.mk ext

/-- Model of `HtmlBundler.getImageMimeType`: extension-to-MIME table with
`image/png` as the fallback. -/
def getImageMimeType (imagePath : String) : String :=
  let ext := String.mk ((extname imagePath).data.map Char.toLower)
  if ext = ".png" then "image/png"
  else if ext = ".jpg" then "image/jpeg"
  else if ext = ".jpeg" then "image/jpeg"
  else if ext = ".gif" then "image/gif"
  else if ext = ".svg" then "image/svg+xml"
  else if ext = ".webp" then "image/webp"
  else if ext = ".ico" then "image/x-icon"
  else if ext = ".bmp" then "image/bmp"
  else "image/png"

/-- Model of `HtmlBundler.inlineImage`: the image bytes are read through the
binary filesystem map and embedded as a base64 data URI in the tag's `src`
attribute (first-occurrence replace, as the source's non-global regex); a
read failure is caught, modelled as `none`. -/
def inlineImage (fsReadBytes : String → Option (List Nat)) (b64enc : List Nat → String)
    (tag : String) (imagePath : String) : Option String :=
  match fsReadBytes imagePath with
  | some imageBuffer =>
      let dataUrl := "data:" ++ getImageMimeType imagePath ++ ";base64," ++ b64enc imageBuffer
      some (replaceFirst tag ("src=\"" ++ imagePath ++ "\"") ("src=\"" ++ dataUrl ++ "\""))
  | none => none

/-- Per-reference step of `processHtml` for stylesheet and script tags:
external (`http…`) references are skipped, a successful inline replaces the
tag by the inline block, and a failed inline leaves the original tag
unmodified in place. -/
def processRefItem (fsRead : String → Option String) (opts : BundlerOptions) :
    HtmlItem → HtmlItem
  | HtmlItem.cssLink href tag =>
      if strStartsWith href "http" then HtmlItem.cssLink href tag
      else
        match inlineCss fsRead opts href with
        | some inlined => HtmlItem.text inlined
        | none => HtmlItem.cssLink href tag
  | HtmlItem.scriptSrcTag src tag =>
      if strStartsWith src "http" then HtmlItem.scriptSrcTag src tag
      else
        match inlineJs fsRead opts src with
        | some inlined => HtmlItem.text inlined
        | none => HtmlItem.scriptSrcTag src tag
  | it => it

/-- Per-image step of `inlineImages`: external URLs and data URIs are
skipped, a successful inline replaces the tag, a failure (caught in the
source) leaves the tag unmodified. -/
def processImgItem (fsReadBytes : String → Option (List Nat))
    (b64enc : List Nat → String) : HtmlItem → HtmlItem
  | HtmlItem.imgTag src tag =>
      if strStartsWith src "http" || strStartsWith src "data:" then HtmlItem.imgTag src tag
      else
        match inlineImage fsReadBytes b64enc tag src with
        | some inlined => HtmlItem.text inlined
        | none => HtmlItem.imgTag src tag
  | it => it

/-- HTML minification step on the item list. The source minifies the
concatenated document string; none of its patterns (comment removal,
inter-tag whitespace, line-edge trimming) rewrites the interior of a
single-line tag, so the model applies the minifier to the text segments. -/
def minifyTextItem : HtmlItem → HtmlItem
  | HtmlItem.text s => HtmlItem.text (minifyHtml s)
  | it => it

/-- The generation banner `addBundleInfo` splices in after `<head>`;
`nowStr` stands for the wall-clock `new Date().toISOString()`. -/
def bundleBanner (nowStr : String) : String :=
  "\n<!-- Bundled by AWS Lambda HTML Bundler -->\n<!-- Generated at: " ++ nowStr ++
    " -->\n<!-- Optimizations: CSS/JS inlined, HTML minified -->\n"

/-- Model of `HtmlBundler.addBundleInfo`: the banner is inserted after the
first `<head>` occurrence of the document (a first-occurrence string
replace), i.e. into the first text segment containing it. -/
def addBundleInfo (banner : String) : List HtmlItem → List HtmlItem
  | [] => []
  | HtmlItem.text s :: rest =>
      if strHasSubstr s "<head>" then
        HtmlItem.text (replaceFirst s "<head>" ("<head>" ++ banner)) :: rest
      else HtmlItem.text s :: addBundleInfo banner rest
  | it :: rest => it :: addBundleInfo banner rest

/-- Model of `HtmlBundler.processHtml`: inline the stylesheet and script
references, then (per the options) inline images, minify, and add the
generation banner. -/
def processHtml (fsRead : String → Option String)
    (fsReadBytes : String → Option (List Nat)) (b64enc : List Nat → String)
    (opts : BundlerOptions) (nowStr : String) (doc : List HtmlItem) : List HtmlItem :=
  let step1 := doc.map (processRefItem fsRead opts)
  let step2 :=
    if opts.compressImages then step1.map (processImgItem fsReadBytes b64enc) else step1
  let step3 := if opts.minifyHtml then step2.map minifyTextItem else step2
  addBundleInfo (bundleBanner nowStr) step3

/-- Model of a cold `HtmlBundler.createBundle` call (fresh instance, so the
memoized-bundle branch is not taken; the cache is only consulted, never
required). `entry` is the scanned view of reading the entry HTML
(`publicDir/index.html`): `none` when that read fails, in which case the
outer catch logs and rethrows, modelled as `Except.error ()`; otherwise the
document is processed and returned. -/
def createBundle (fsRead : String → Option String)
    (fsReadBytes : String → Option (List Nat)) (b64enc : List Nat → String)
    (opts : BundlerOptions) (nowStr : String) (entry : Option (List HtmlItem)) :
    Except Unit (List HtmlItem) :=
  match entry with
  | none => Except.error ()
  | some doc => Except.ok (processHtml fsRead fsReadBytes b64enc opts nowStr doc)

end HtmlBundler

/-- Concrete stand-in for the external `RegExp` constructor, used in
witnesses and counterexamples: it rejects the syntactically invalid pattern
`"("` (an unmatched group, a documented `SyntaxError`) and compiles any
other pattern to a substring test (the partial-key match `deletePattern` is
documented to perform). Only its failure on the invalid pattern and its
totality on compiled patterns are relied upon. -/
def witnessRegexCompile : String → Option (String → Bool) :=
  fun pattern =>
    if pattern = "(" then none else some (fun key => strHasSubstr key pattern)

/-! ## DataProcessor -/

/-- The PR record shape read by `calculatePRStatistics`. A record with no
`status` in the stored JSON is `none` (neither `open` nor `merged`); the
numeric fields are optional and default to 0 through the source's `|| 0`;
`first_review` models the truthiness of the `pr.first_review` field. -/
structure PRRecord where
  status : Option String
  author : String
  repository : String
  lifetime_days : Option Rat
  num_comments : Option Rat
  first_review : Bool
deriving Repr

/-- JS `Math.round` on a rational: round half toward positive infinity. -/
def jsRound (x : Rat) : Int := (x + 1 / 2).floor

/-- JS `Set.prototype.add` on a set kept as its insertion-ordered list. -/
def jsSetAdd (l : List String) (a : String) : List String :=
  if a ∈ l then l else l ++ [a]

/-- Result record of `calculatePRStatistics`, after the `Set`s are converted
to arrays and the unique counts and rounded averages are filled in. -/
structure PRStats where
  total_prs : Nat
  open_prs : Nat
  closed_prs : Nat
  merged_prs : Nat
  avg_lifetime_days : Rat
  avg_comments : Rat
  reviews_per_pr : Rat
  authors : List String
  repositories : List String
  unique_authors : Nat
  unique_repositories : Nat
deriving Repr, DecidableEq

namespace DataProcessor

/-- Accumulator of the `for` loop in `calculatePRStatistics`. -/
structure StatsAcc where
  open_prs : Nat
  closed_prs : Nat
  merged_prs : Nat
  authors : List String
  repositories : List String
  totalLifetime : Rat
  totalComments : Rat
  totalReviews : Nat
deriving Repr, DecidableEq

/-- One iteration of the loop in `calculatePRStatistics`: a PR with status
`open` counts as open, with status `merged` as merged, and anything else —
including a missing status — as closed; the author and repository are added
to their sets, and the numeric totals grow with `|| 0` defaults. -/
def statsStep (acc : StatsAcc) (pr : PRRecord) : StatsAcc :=
  let acc1 :=
    if pr.status = some "open" then { acc with open_prs := acc.open_prs + 1 }
    else if pr.status = some "merged" then { acc with merged_prs := acc.merged_prs + 1 }
    else { acc with closed_prs := acc.closed_prs + 1 }
  { acc1 with
    authors := jsSetAdd acc1.authors pr.author,
    repositories := jsSetAdd acc1.repositories pr.repository,
    totalLifetime := acc1.totalLifetime + (pr.lifetime_days).getD 0,
    totalComments := acc1.totalComments + (pr.num_comments).getD 0,
    totalReviews := acc1.totalReviews + (if pr.first_review then 1 else 0) }

/-- Model of `DataProcessor.calculatePRStatistics`: the loop over the PR
records followed by the average computations (guarded by a non-empty input,
rounded to one decimal place, or two for reviews per PR) and the
set-to-array conversions. -/
def calculatePRStatistics (prDetails : List PRRecord) : PRStats :=
  let acc := prDetails.foldl statsStep
    { open_prs := 0, closed_prs := 0, merged_prs := 0, authors := [],
      repositories := [], totalLifetime := 0, totalComments := 0, totalReviews := 0 }
  let n := prDetails.length
  { total_prs := n,
    open_prs := acc.open_prs,
    closed_prs := acc.closed_prs,
    merged_prs := acc.merged_prs,
    avg_lifetime_days :=
      if 0 < n then (jsRound (acc.totalLifetime / (n : Rat) * 10) : Rat) / 10 else 0,
    avg_comments :=
      if 0 < n then (jsRound (acc.totalComments / (n : Rat) * 10) : Rat) / 10 else 0,
    reviews_per_pr :=
      if 0 < n then (jsRound ((acc.totalReviews : Rat) / (n : Rat) * 100) : Rat) / 100
      else 0,
    authors := acc.authors,
    repositories := acc.repositories,
    unique_authors := acc.authors.length,
    unique_repositories := acc.repositories.length }

end DataProcessor

/-! ## Association-list lemmas -/

theorem mapGet_eq_none_iff (k : String) (l : List (String × α)) :
    mapGet k l = none ↔ k ∉ mapKeys l := by
  simp only [mapGet, Option.map_eq_none', List.find?_eq_none, decide_eq_true_eq, mapKeys,
    List.mem_map]
  constructor
  · rintro h ⟨p, hp, rfl⟩
    exact h p hp rfl
  · rintro h p hp rfl
    exact h ⟨p, hp, rfl⟩

theorem mapDelete_of_not_mem {k : String} {l : List (String × α)} (h : k ∉ mapKeys l) :
    mapDelete k l = l := by
  rw [mapDelete, List.filter_eq_self]
  intro p hp
  simp only [decide_eq_true_eq]
  intro hk
  exact h (List.mem_map.mpr ⟨p, hp, hk⟩)

theorem not_mem_mapKeys_mapDelete (k : String) (l : List (String × α)) :
    k ∉ mapKeys (mapDelete k l) := by
  simp only [mapKeys, mapDelete, List.mem_map, List.mem_filter, decide_eq_true_eq]
  rintro ⟨p, ⟨_, hne⟩, rfl⟩
  exact hne rfl

theorem mapKeys_mapDelete_sublist (k : String) (l : List (String × α)) :
    (mapKeys (mapDelete k l)).Sublist (mapKeys l) :=
  List.Sublist.map Prod.fst (List.filter_sublist l)

theorem keysNodup_mapDelete {l : List (String × CacheEntry)} (h : keysNodup l) (k : String) :
    keysNodup (mapDelete k l) :=
  List.Nodup.sublist (mapKeys_mapDelete_sublist k l) h

theorem sumSizes_cons (p : String × CacheEntry) (l : List (String × CacheEntry)) :
    sumSizes (p :: l) = (p.2.size : Int) + sumSizes l := by
  simp [sumSizes]

theorem sumSizes_append (l m : List (String × CacheEntry)) :
    sumSizes (l ++ m) = sumSizes l + sumSizes m := by
  simp [sumSizes]

theorem sumSizes_mapDelete {l : List (String × CacheEntry)} {k : String} {e : CacheEntry}
    (hnd : keysNodup l) (he : mapGet k l = some e) :
    sumSizes (mapDelete k l) = sumSizes l - (e.size : Int) := by
  induction l with
  | nil => simp [mapGet] at he
  | cons p rest ih =>
      have hnd' : p.1 ∉ mapKeys rest ∧ keysNodup rest := by
        simpa [keysNodup, mapKeys] using hnd
      by_cases hk : p.1 = k
      · have hee : e = p.2 := by
          simp [mapGet, List.find?_cons, hk] at he
          exact he.symm
        have hdel : mapDelete k (p :: rest) = rest := by
          have h1 : mapDelete k (p :: rest) = mapDelete k rest := by
            simp [mapDelete, List.filter_cons, hk]
          rw [h1, mapDelete_of_not_mem (hk ▸ hnd'.1)]
        rw [hdel, sumSizes_cons, hee]
        ring
      · have he' : mapGet k rest = some e := by
          simpa [mapGet, List.find?_cons, hk] using he
        have : mapDelete k (p :: rest) = p :: mapDelete k rest := by
          simp [mapDelete, List.filter_cons, hk]
        rw [this, sumSizes_cons, sumSizes_cons, ih hnd'.2 he']
        ring

theorem mapSet_of_not_mem {k : String} {l : List (String × α)} (h : k ∉ mapKeys l) (v : α) :
    mapSet k v l = l ++ [(k, v)] := by
  induction l with
  | nil => rfl
  | cons p rest ih =>
      have h1 : p.1 ≠ k := by
        intro hk
        exact h (by simp [mapKeys, hk])
      have h2 : k ∉ mapKeys rest := by
        intro hk
        exact h (by simp [mapKeys] at hk ⊢; exact Or.inr hk)
      simp [mapSet, h1, ih h2]

theorem mapGet_append_singleton {k : String} {l : List (String × α)}
    (h : k ∉ mapKeys l) (v : α) :
    mapGet k (l ++ [(k, v)]) = some v := by
  induction l with
  | nil => simp [mapGet, List.find?_cons]
  | cons p rest ih =>
      have h1 : p.1 ≠ k := by
        intro hk
        exact h (by simp [mapKeys, hk])
      have h2 : k ∉ mapKeys rest := by
        intro hk
        exact h (by simp [mapKeys] at hk ⊢; exact Or.inr hk)
      simpa [mapGet, List.find?_cons, h1] using ih h2

theorem mapKeys_append (l m : List (String × α)) :
    mapKeys (l ++ m) = mapKeys l ++ mapKeys m := by
  simp [mapKeys]

theorem head_eq_of_eq_cons {l : List α} {p : α} {tail : List α} (hl : l ≠ [])
    (hc : l = p :: tail) : l.head hl = p := by
  subst hc
  rfl

/-! ## CacheManager.delete lemmas -/

theorem delete_wf {s : CacheState} (h : s.wf) (k : String) :
    ((CacheManager.delete s k).2).wf := by
  obtain ⟨hnd, hsz⟩ := h
  unfold CacheManager.delete
  cases hg : mapGet k s.cache with
  | none => exact ⟨hnd, hsz⟩
  | some e =>
      refine ⟨keysNodup_mapDelete hnd k, ?_⟩
      simp [sumSizes_mapDelete hnd hg, hsz]

theorem delete_fields (s : CacheState) (k : String) :
    ((CacheManager.delete s k).2).maxSize = s.maxSize ∧
    ((CacheManager.delete s k).2).hitCount = s.hitCount ∧
    ((CacheManager.delete s k).2).missCount = s.missCount ∧
    ((CacheManager.delete s k).2).defaultTTL = s.defaultTTL := by
  unfold CacheManager.delete
  cases mapGet k s.cache <;> exact ⟨rfl, rfl, rfl, rfl⟩

theorem delete_keys_sublist (s : CacheState) (k : String) :
    (mapKeys ((CacheManager.delete s k).2).cache).Sublist (mapKeys s.cache) := by
  unfold CacheManager.delete
  cases mapGet k s.cache with
  | none => exact List.Sublist.refl _
  | some e => exact mapKeys_mapDelete_sublist k s.cache

theorem delete_cons_head {k : String} {e : CacheEntry} {rest : List (String × CacheEntry)}
    {s : CacheState} (hc : s.cache = (k, e) :: rest) (hnd : keysNodup s.cache) :
    (CacheManager.delete s k).2 =
      { s with cache := rest, currentSize := s.currentSize - (e.size : Int) } := by
  have hk : k ∉ mapKeys rest := by
    rw [hc] at hnd
    have hnd' : k ∉ mapKeys rest ∧ keysNodup rest := by
      simpa [keysNodup, mapKeys] using hnd
    exact hnd'.1
  have hg : mapGet k s.cache = some e := by
    simp [mapGet, hc, List.find?_cons]
  have hd : mapDelete k s.cache = rest := by
    rw [hc]
    have h1 : mapDelete k ((k, e) :: rest) = mapDelete k rest := by
      simp [mapDelete, List.filter_cons]
    rw [h1, mapDelete_of_not_mem hk]
  unfold CacheManager.delete
  rw [hg]
  simp [hd]

theorem delete_keysNodup {s : CacheState} (h : keysNodup s.cache) (k : String) :
    keysNodup ((CacheManager.delete s k).2).cache :=
  List.Nodup.sublist (delete_keys_sublist s k) h

theorem delete_cache_not_mem (s : CacheState) (k : String) :
    k ∉ mapKeys ((CacheManager.delete s k).2).cache := by
  unfold CacheManager.delete
  cases hg : mapGet k s.cache with
  | none =>
      simp only
      exact (mapGet_eq_none_iff k s.cache).mp hg
  | some e => exact not_mem_mapKeys_mapDelete k s.cache

/-! ## Eviction loop vs the spec's LRU description -/

theorem specLruEvict_fst_sublist (cap need : Nat) :
    ∀ (l : List (String × CacheEntry)) (cur : Int),
      ((specLruEvict cap need l cur).1).Sublist l := by
  intro l
  induction l with
  | nil => intro cur; simp [specLruEvict]
  | cons p rest ih =>
      intro cur
      obtain ⟨k, e⟩ := p
      simp only [specLruEvict]
      split
      · exact List.Sublist.trans (ih _) (List.sublist_cons_self _ _)
      · exact List.Sublist.refl _

theorem specLruEvict_sum (cap need : Nat) :
    ∀ (l : List (String × CacheEntry)) (cur : Int),
      (specLruEvict cap need l cur).2 - sumSizes (specLruEvict cap need l cur).1 =
        cur - sumSizes l := by
  intro l
  induction l with
  | nil => intro cur; simp [specLruEvict, sumSizes]
  | cons p rest ih =>
      intro cur
      obtain ⟨k, e⟩ := p
      simp only [specLruEvict]
      split
      · rw [ih]
        rw [sumSizes_cons]
        ring
      · rfl

theorem evictGo_eq_spec (d : Nat) : ∀ (fuel : Nat) (s : CacheState),
    s.cache.length ≤ fuel → keysNodup s.cache →
    CacheManager.evictGo fuel s d =
      { s with cache := (specLruEvict s.maxSize d s.cache s.currentSize).1,
               currentSize := (specLruEvict s.maxSize d s.cache s.currentSize).2 } := by
  intro fuel
  induction fuel with
  | zero =>
      intro s hlen _
      have hc : s.cache = [] := List.length_eq_zero.mp (Nat.le_zero.mp hlen)
      have hspec : specLruEvict s.maxSize d s.cache s.currentSize =
          (s.cache, s.currentSize) := by
        rw [hc]
        rfl
      rw [hspec]
      rfl
  | succ fuel ih =>
      intro s hlen hnd
      obtain ⟨c, ms, cs, hcnt, mcnt, dttl⟩ := s
      cases c with
      | nil =>
          simp only [CacheManager.evictGo]
          rw [dif_neg (by simp)]
          rfl
      | cons p tail =>
          obtain ⟨k, e⟩ := p
          simp only [CacheManager.evictGo]
          by_cases hcond : cs + (d : Int) > (ms : Int)
          · rw [dif_pos ⟨hcond, by simp⟩]
            simp only [List.head_cons]
            have hdel := @delete_cons_head k e tail
              ⟨(k, e) :: tail, ms, cs, hcnt, mcnt, dttl⟩ rfl hnd
            have hndtail : keysNodup tail := by
              have hnd' : k ∉ mapKeys tail ∧ keysNodup tail := by
                simpa [keysNodup, mapKeys] using hnd
              exact hnd'.2
            have hlen' : tail.length ≤ fuel := by
              simpa using hlen
            rw [hdel, ih _ hlen' hndtail]
            have hspec : specLruEvict ms d ((k, e) :: tail) cs =
                specLruEvict ms d tail (cs - (e.size : Int)) := by
              simp only [specLruEvict]
              rw [if_pos hcond]
            simp only at hspec ⊢
            rw [hspec]
          · rw [dif_neg (by intro hcon; exact hcond hcon.1)]
            have hspec : specLruEvict ms d ((k, e) :: tail) cs = ((k, e) :: tail, cs) := by
              simp only [specLruEvict]
              rw [if_neg hcond]
            simp only [hspec]

theorem evictLoop_eq_spec (s : CacheState) (d : Nat) (hnd : keysNodup s.cache) :
    CacheManager.evictLoop s d =
      { s with cache := (specLruEvict s.maxSize d s.cache s.currentSize).1,
               currentSize := (specLruEvict s.maxSize d s.cache s.currentSize).2 } :=
  evictGo_eq_spec d s.cache.length s le_rfl hnd

theorem evictLoop_props {s : CacheState} {d : Nat} (hnd : keysNodup s.cache) :
    keysNodup ((CacheManager.evictLoop s d).cache) ∧
    (mapKeys (CacheManager.evictLoop s d).cache).Sublist (mapKeys s.cache) ∧
    (CacheManager.evictLoop s d).maxSize = s.maxSize ∧
    (CacheManager.evictLoop s d).hitCount = s.hitCount ∧
    (CacheManager.evictLoop s d).missCount = s.missCount ∧
    (CacheManager.evictLoop s d).defaultTTL = s.defaultTTL ∧
    (s.currentSize = sumSizes s.cache →
      (CacheManager.evictLoop s d).currentSize = sumSizes (CacheManager.evictLoop s d).cache) := by
  rw [evictLoop_eq_spec s d hnd]
  dsimp only
  have hsub : ((specLruEvict s.maxSize d s.cache s.currentSize).1).Sublist s.cache :=
    specLruEvict_fst_sublist s.maxSize d s.cache s.currentSize
  have hkeys : (mapKeys (specLruEvict s.maxSize d s.cache s.currentSize).1).Sublist
      (mapKeys s.cache) := List.Sublist.map Prod.fst hsub
  refine ⟨List.Nodup.sublist hkeys hnd, hkeys, rfl, rfl, rfl, rfl, ?_⟩
  intro hsz
  have := specLruEvict_sum s.maxSize d s.cache s.currentSize
  omega

/-! ## CacheManager.set structure lemma -/

theorem set_result {s : CacheState} (key : String) (data : JsValue) (ttl now : Int)
    (hnd : keysNodup s.cache)
    (hfit : utf8ByteLength (jsonStringify data) ≤ s.maxSize) :
    ∃ s2 : CacheState,
      CacheManager.set s key data ttl now =
        (true, { s2 with
          cache := s2.cache ++ [(key, mkEntry data ttl now)],
          currentSize := s2.currentSize + (utf8ByteLength (jsonStringify data) : Int) }) ∧
      key ∉ mapKeys s2.cache ∧ keysNodup s2.cache ∧
      s2.maxSize = s.maxSize ∧ s2.hitCount = s.hitCount ∧ s2.missCount = s.missCount ∧
      s2.defaultTTL = s.defaultTTL ∧
      (s.currentSize = sumSizes s.cache → s2.currentSize = sumSizes s2.cache) := by
  have hngt : ¬ utf8ByteLength (jsonStringify data) > s.maxSize := by omega
  -- the intermediate state after the delete-existing step
  set s1 : CacheState :=
    if (mapGet key s.cache).isSome then (CacheManager.delete s key).2 else s with hs1
  have hs1nd : keysNodup s1.cache := by
    rw [hs1]
    split
    · exact delete_keysNodup hnd key
    · exact hnd
  have hs1key : key ∉ mapKeys s1.cache := by
    rw [hs1]
    split
    · exact delete_cache_not_mem s key
    · rename_i hns
      cases hg : mapGet key s.cache with
      | none => exact (mapGet_eq_none_iff key s.cache).mp hg
      | some e => rw [hg] at hns; simp at hns
  have hs1fields : s1.maxSize = s.maxSize ∧ s1.hitCount = s.hitCount ∧
      s1.missCount = s.missCount ∧ s1.defaultTTL = s.defaultTTL := by
    rw [hs1]
    split
    · exact delete_fields s key
    · exact ⟨rfl, rfl, rfl, rfl⟩
  have hs1sz : s.currentSize = sumSizes s.cache → s1.currentSize = sumSizes s1.cache := by
    intro hsz
    rw [hs1]
    split
    · exact (delete_wf ⟨hnd, hsz⟩ key).2
    · exact hsz
  obtain ⟨h2nd, h2keys, h2max, h2hit, h2miss, h2ttl, h2sz⟩ :=
    @evictLoop_props s1 (utf8ByteLength (jsonStringify data)) hs1nd
  refine ⟨CacheManager.evictLoop s1 (utf8ByteLength (jsonStringify data)), ?_, ?_, h2nd,
    h2max.trans hs1fields.1, h2hit.trans hs1fields.2.1, h2miss.trans hs1fields.2.2.1,
    h2ttl.trans hs1fields.2.2.2, fun hsz => h2sz (hs1sz hsz)⟩
  · simp only [CacheManager.set]
    rw [if_neg hngt, ← hs1]
    rw [mapSet_of_not_mem (fun hmem => hs1key (List.Sublist.subset h2keys hmem)) _]
    rfl
  · intro hmem
    exact hs1key (List.Sublist.subset h2keys hmem)

/-! ## Well-formedness preservation -/

theorem keysNodup_append_singleton {l : List (String × CacheEntry)} {k : String}
    (hnd : keysNodup l) (hk : k ∉ mapKeys l) (e : CacheEntry) :
    keysNodup (l ++ [(k, e)]) := by
  unfold keysNodup
  rw [mapKeys_append]
  rw [List.nodup_append]
  refine ⟨hnd, List.nodup_singleton k, ?_⟩
  intro a ha hb
  have : a = k := by simpa [mapKeys] using hb
  exact hk (this ▸ ha)

theorem mapGet_delete_self (s : CacheState) (k : String) :
    mapGet k ((CacheManager.delete s k).2).cache = none := by
  unfold CacheManager.delete
  cases hg : mapGet k s.cache with
  | none => exact hg
  | some e =>
      exact (mapGet_eq_none_iff k (mapDelete k s.cache)).mpr
        (not_mem_mapKeys_mapDelete k s.cache)

theorem get_expired {s : CacheState} {key : String} {e : CacheEntry} {now : Int}
    (hg : mapGet key s.cache = some e) (hexp : e.expiresAt < now) :
    CacheManager.get s key now =
      (none, { (CacheManager.delete s key).2 with
               missCount := ((CacheManager.delete s key).2).missCount + 1 }) := by
  unfold CacheManager.get
  rw [hg]
  dsimp only
  rw [if_pos hexp]

theorem get_wf {s : CacheState} (h : s.wf) (key : String) (now : Int) :
    ((CacheManager.get s key now).2).wf := by
  unfold CacheManager.get
  cases hg : mapGet key s.cache with
  | none =>
      dsimp only
      exact ⟨h.1, h.2⟩
  | some e =>
      dsimp only
      split
      · have hw := delete_wf h key
        exact ⟨hw.1, hw.2⟩
      · refine ⟨?_, ?_⟩
        · dsimp only
          rw [mapSet_of_not_mem (not_mem_mapKeys_mapDelete key s.cache) e]
          exact keysNodup_append_singleton (keysNodup_mapDelete h.1 key)
            (not_mem_mapKeys_mapDelete key s.cache) e
        · dsimp only
          rw [mapSet_of_not_mem (not_mem_mapKeys_mapDelete key s.cache) e,
            sumSizes_append, sumSizes_mapDelete h.1 hg]
          have hone : sumSizes [(key, e)] = (e.size : Int) := by simp [sumSizes]
          rw [hone]
          have hsz := h.2
          omega

theorem set_wf {s : CacheState} (h : s.wf) (key : String) (data : JsValue) (ttl now : Int) :
    ((CacheManager.set s key data ttl now).2).wf := by
  by_cases hbig : utf8ByteLength (jsonStringify data) > s.maxSize
  · have heq : CacheManager.set s key data ttl now = (false, s) := by
      simp only [CacheManager.set]
      rw [if_pos hbig]
    rw [heq]
    exact h
  · obtain ⟨s2, heq, hkey, hnd2, _, _, _, _, hszt⟩ :=
      set_result key data ttl now h.1 (by omega)
    rw [heq]
    refine ⟨keysNodup_append_singleton hnd2 hkey _, ?_⟩
    dsimp only
    rw [sumSizes_append, hszt h.2]
    simp [sumSizes, mkEntry]

theorem clear_wf (s : CacheState) : (CacheManager.clear s).wf := by
  constructor
  · simp [CacheManager.clear, keysNodup, mapKeys]
  · simp [CacheManager.clear, sumSizes]

theorem foldl_delete_wf : ∀ (ks : List String) {s : CacheState}, s.wf →
    (ks.foldl (fun st k => (CacheManager.delete st k).2) s).wf := by
  intro ks
  induction ks with
  | nil => intro s h; exact h
  | cons k rest ih => intro s h; exact ih (delete_wf h k)

theorem evictExpired_wf {s : CacheState} (h : s.wf) (now : Int) :
    ((CacheManager.evictExpired s now).2).wf := by
  unfold CacheManager.evictExpired
  exact foldl_delete_wf _ h

theorem deletePattern_compile_fails {regexCompile : String → Option (String → Bool)}
    {pattern : String} (hc : regexCompile pattern = none) (s : CacheState) :
    CacheManager.deletePattern regexCompile s pattern = Except.error () := by
  unfold CacheManager.deletePattern
  rw [hc]

theorem deletePattern_compiles {regexCompile : String → Option (String → Bool)}
    {pattern : String} {test : String → Bool} (hc : regexCompile pattern = some test)
    (s : CacheState) :
    CacheManager.deletePattern regexCompile s pattern =
      Except.ok (((mapKeys s.cache).filter test).length,
        ((mapKeys s.cache).filter test).foldl
          (fun st k => (CacheManager.delete st k).2) s) := by
  unfold CacheManager.deletePattern
  rw [hc]

theorem deletePattern_ok_wf {s : CacheState} (h : s.wf)
    (regexCompile : String → Option (String → Bool)) (pattern : String) :
    ∀ r, CacheManager.deletePattern regexCompile s pattern = Except.ok r → r.2.wf := by
  intro r hr
  cases hc : regexCompile pattern with
  | none =>
      rw [deletePattern_compile_fails hc s] at hr
      exact absurd hr (by simp)
  | some test =>
      rw [deletePattern_compiles hc s] at hr
      have hre : (((mapKeys s.cache).filter test).length,
          ((mapKeys s.cache).filter test).foldl
            (fun st k => (CacheManager.delete st k).2) s) = r := by
        injection hr
      rw [← hre]
      exact foldl_delete_wf _ h

theorem runOp_wf {s : CacheState} (h : s.wf) (op : CacheOp) : (runOp s op).wf := by
  cases op with
  | setOp key data ttl now => exact set_wf h key data ttl now
  | getOp key now => exact get_wf h key now
  | deleteOp key => exact delete_wf h key
  | deletePatternOp regexCompile pattern =>
      simp only [runOp]
      cases hr : CacheManager.deletePattern regexCompile s pattern with
      | error e => exact h
      | ok r => exact deletePattern_ok_wf h regexCompile pattern r hr
  | evictExpiredOp now => exact evictExpired_wf h now
  | clearOp => exact clear_wf s

theorem runOps_wf : ∀ (ops : List CacheOp) (s : CacheState), s.wf → (runOps s ops).wf := by
  intro ops
  induction ops with
  | nil => intro s h; exact h
  | cons op rest ih => intro s h; exact ih _ (runOp_wf h op)

theorem init_wf (maxSize : Nat) : (CacheState.init maxSize).wf := by
  constructor
  · simp [CacheState.init, keysNodup, mapKeys]
  · simp [CacheState.init, sumSizes]

/-! ## Claims C1-C4 -/

/-- C2: after any sequence of `set`, `get`, `delete`, `deletePattern`,
`evictExpired` and `clear` operations on a freshly constructed cache, the
tracked `currentSize` equals the exact sum of the stored sizes of the entries
currently present. -/
theorem c2_size_accounting (maxSize : Nat) (ops : List CacheOp) :
    (runOps (CacheState.init maxSize) ops).currentSize =
      sumSizes (runOps (CacheState.init maxSize) ops).cache :=
  (runOps_wf ops _ (init_wf maxSize)).2

/-- C4: a value whose serialized byte size exceeds the configured maximum
capacity is rejected by `set`: the call returns `false` and the entire state
(entries, `currentSize`, counters) is returned unchanged. -/
theorem c4_oversized_set_rejected (s : CacheState) (key : String) (data : JsValue)
    (ttl now : Int) (h : utf8ByteLength (jsonStringify data) > s.maxSize) :
    CacheManager.set s key data ttl now = (false, s) := by
  simp only [CacheManager.set]
  rw [if_pos h]

/-- C4 witness: a 5-byte cache rejects an 11-character string (13 serialized
bytes) and is left unchanged. -/
theorem c4_oversized_set_rejected_witness :
    utf8ByteLength (jsonStringify (JsValue.str "hello world")) > (CacheState.init 5).maxSize ∧
    CacheManager.set (CacheState.init 5) "k" (JsValue.str "hello world") 1000 0 =
      (false, CacheState.init 5) :=
  ⟨by decide, c4_oversized_set_rejected (CacheState.init 5) "k" (JsValue.str "hello world")
    1000 0 (by decide)⟩

/-- C3: for every key and TTL ≥ 0, a `get` performed after the entry's
`expiresAt` has elapsed returns the miss sentinel `none`, removes the entry,
and increments the miss counter while leaving the hit counter unchanged. -/
theorem c3_expired_get_misses (s : CacheState) (key : String) (data : JsValue)
    (ttl now1 now2 : Int) (hnd : keysNodup s.cache)
    (hfit : utf8ByteLength (jsonStringify data) ≤ s.maxSize)
    (httl : 0 ≤ ttl) (helapsed : now1 + ttl < now2) :
    (CacheManager.get (CacheManager.set s key data ttl now1).2 key now2).1 = none ∧
    mapGet key
      ((CacheManager.get (CacheManager.set s key data ttl now1).2 key now2).2).cache = none ∧
    ((CacheManager.get (CacheManager.set s key data ttl now1).2 key now2).2).missCount =
      ((CacheManager.set s key data ttl now1).2).missCount + 1 ∧
    ((CacheManager.get (CacheManager.set s key data ttl now1).2 key now2).2).hitCount =
      ((CacheManager.set s key data ttl now1).2).hitCount := by
  obtain ⟨s2, heq, hkey, hnd2, _, _, _, _, _⟩ := set_result key data ttl now1 hnd hfit
  have hg : mapGet key ((CacheManager.set s key data ttl now1).2).cache =
      some (mkEntry data ttl now1) := by
    rw [heq]
    exact mapGet_append_singleton hkey _
  have hexp : (mkEntry data ttl now1).expiresAt < now2 := by
    simp only [mkEntry]
    omega
  rw [get_expired hg hexp]
  have hdf := delete_fields ((CacheManager.set s key data ttl now1).2) key
  refine ⟨rfl, ?_, ?_, ?_⟩
  · exact mapGet_delete_self _ key
  · dsimp only
    rw [hdf.2.2.1]
  · dsimp only
    rw [hdf.2.1]

/-- C1: `set` realizes the spec's LRU description — any existing entry under
the key is removed, then least-recently-used entries (the front of the
recency order) are evicted one at a time until the new entry fits, and the
new entry is appended as most-recently-used; and a `get` hit on a live entry
moves it to the most-recently-used position, so the iteration order is the
recency order that eviction consumes. -/
theorem c1_lru_eviction (s : CacheState) (key : String) (data : JsValue) (ttl now : Int)
    (hnd : keysNodup s.cache)
    (hfit : utf8ByteLength (jsonStringify data) ≤ s.maxSize) :
    ((CacheManager.set s key data ttl now).2).cache =
      specLruSetCache s key (mkEntry data ttl now) ∧
    (∀ e : CacheEntry, mapGet key s.cache = some e → ¬ e.expiresAt < now →
      (CacheManager.get s key now).1 = some e.data ∧
      ((CacheManager.get s key now).2).cache = mapDelete key s.cache ++ [(key, e)]) := by
  constructor
  · have hngt : ¬ utf8ByteLength (jsonStringify data) > s.maxSize := by omega
    set s1 : CacheState :=
      if (mapGet key s.cache).isSome then (CacheManager.delete s key).2 else s with hs1
    have hs1nd : keysNodup s1.cache := by
      rw [hs1]
      split
      · exact delete_keysNodup hnd key
      · exact hnd
    have hs1cache : s1.cache = mapDelete key s.cache := by
      rw [hs1]
      split
      · rename_i hsome
        obtain ⟨e, hg⟩ := Option.isSome_iff_exists.mp hsome
        unfold CacheManager.delete
        rw [hg]
      · rename_i hns
        cases hg : mapGet key s.cache with
        | none =>
            rw [mapDelete_of_not_mem ((mapGet_eq_none_iff key s.cache).mp hg)]
        | some e => rw [hg] at hns; simp at hns
    have hs1cur : s1.currentSize =
        (match mapGet key s.cache with
         | some old => s.currentSize - (old.size : Int)
         | none => s.currentSize) := by
      rw [hs1]
      cases hg : mapGet key s.cache with
      | none => simp
      | some e =>
          simp only [Option.isSome_some, if_true]
          unfold CacheManager.delete
          rw [hg]
    have hs1max : s1.maxSize = s.maxSize := by
      rw [hs1]
      split
      · exact (delete_fields s key).1
      · rfl
    have hs1key : key ∉ mapKeys s1.cache := by
      rw [hs1cache]
      exact not_mem_mapKeys_mapDelete key s.cache
    simp only [CacheManager.set]
    rw [if_neg hngt, ← hs1]
    dsimp only
    rw [evictLoop_eq_spec s1 _ hs1nd]
    dsimp only
    have hsub := specLruEvict_fst_sublist s1.maxSize (utf8ByteLength (jsonStringify data))
      s1.cache s1.currentSize
    have hnomem : key ∉ mapKeys
        ((specLruEvict s1.maxSize (utf8ByteLength (jsonStringify data))
          s1.cache s1.currentSize).1) := by
      intro hmem
      exact hs1key (List.Sublist.subset (List.Sublist.map Prod.fst hsub) hmem)
    rw [mapSet_of_not_mem hnomem]
    unfold specLruSetCache
    dsimp only
    rw [hs1cache, hs1cur, hs1max]
    rfl
  · intro e hg hlive
    unfold CacheManager.get
    rw [hg]
    dsimp only
    rw [if_neg hlive]
    refine ⟨rfl, ?_⟩
    dsimp only
    rw [mapSet_of_not_mem (not_mem_mapKeys_mapDelete key s.cache) e]

/-- C1 witness: the spec's example scenario. With capacity 1000 and A(400B),
B(400B) inserted in order, inserting C(400B) evicts A (the oldest untouched
entry): the surviving iteration order is exactly `["B", "C"]`. -/
theorem c1_lru_eviction_witness :
    keysNodup scenarioAB.cache ∧
    utf8ByteLength (jsonStringify payload400) ≤ scenarioAB.maxSize ∧
    mapKeys scenarioAB.cache = ["A", "B"] ∧
    ((CacheManager.set scenarioAB "C" payload400 300000 0).2).cache =
      specLruSetCache scenarioAB "C" (mkEntry payload400 300000 0) ∧
    mapKeys ((CacheManager.set scenarioAB "C" payload400 300000 0).2).cache = ["B", "C"] :=
  ⟨by decide, by decide, by decide,
   (c1_lru_eviction scenarioAB "C" payload400 300000 0 (by decide) (by decide)).1,
   by decide⟩

/-- C3 witness: an entry stored at time 0 with TTL 10 is reported as a miss,
removed, and counted as a miss when read at time 11. -/
theorem c3_expired_get_misses_witness :
    keysNodup (CacheState.init 100).cache ∧
    utf8ByteLength (jsonStringify (JsValue.num 5)) ≤ (CacheState.init 100).maxSize ∧
    (0 : Int) ≤ 10 ∧ (0 : Int) + 10 < 11 ∧
    ((CacheManager.get (CacheManager.set (CacheState.init 100) "k" (JsValue.num 5) 10 0).2
        "k" 11).1 = none ∧
     mapGet "k"
       ((CacheManager.get (CacheManager.set (CacheState.init 100) "k" (JsValue.num 5) 10 0).2
         "k" 11).2).cache = none ∧
     ((CacheManager.get (CacheManager.set (CacheState.init 100) "k" (JsValue.num 5) 10 0).2
        "k" 11).2).missCount =
       ((CacheManager.set (CacheState.init 100) "k" (JsValue.num 5) 10 0).2).missCount + 1 ∧
     ((CacheManager.get (CacheManager.set (CacheState.init 100) "k" (JsValue.num 5) 10 0).2
        "k" 11).2).hitCount =
       ((CacheManager.set (CacheState.init 100) "k" (JsValue.num 5) 10 0).2).hitCount) :=
  ⟨by decide, by decide, by decide, by decide,
   c3_expired_get_misses (CacheState.init 100) "k" (JsValue.num 5) 10 0 11
     (by decide) (by decide) (by decide) (by decide)⟩

/-- C8 counterexample: `deletePattern` does not return normally for every
pattern string. The source runs `new RegExp(pattern)` with no guard, and the
constructor rejects the syntactically invalid pattern `"("` (an unmatched
group) with a `SyntaxError`, which propagates out of `deletePattern` —
modelled by the concrete constructor stand-in, on which the call returns the
error instead of a value. -/
theorem c8_no_throw_counterexample :
    CacheManager.deletePattern witnessRegexCompile (CacheState.init 100) "(" =
      Except.error () := rfl

/-- C8 (amended): no CacheManager operation other than `deletePattern`
throws — `generateKey`, `get`, `set`, `delete`, `evictExpired`, `getStats`
and `clear` are total functions of the state and their arguments for every
input (failures are signalled only through return values, e.g. `set` returns
`false`), and each maps a well-formed state (distinct keys, exact size
accounting) to a well-formed state. `deletePattern` first runs the unguarded
`new RegExp(pattern)`: on a pattern the constructor rejects, the
`SyntaxError` propagates (before any mutation); on any pattern that
compiles, `deletePattern` returns normally and its result state is
well-formed. -/
theorem c8_no_throw (s : CacheState) (hwf : s.wf) (key : String) (data : JsValue)
    (ttl now now2 now3 : Int) (regexCompile : String → Option (String → Bool))
    (pattern : String) (ns : String) (params : List (String × JsValue)) :
    ((CacheManager.get s key now).2).wf ∧
    ((CacheManager.set s key data ttl now2).2).wf ∧
    ((CacheManager.delete s key).2).wf ∧
    ((CacheManager.evictExpired s now3).2).wf ∧
    (CacheManager.clear s).wf ∧
    CacheManager.generateKey ns params =
      ns ++ ":" ++ jsonStringify (JsValue.obj (CacheManager.sortParams params)) ∧
    (CacheManager.getStats s).currentSize = s.currentSize ∧
    (∀ test : String → Bool, regexCompile pattern = some test →
      ∃ r, CacheManager.deletePattern regexCompile s pattern = Except.ok r ∧ r.2.wf) ∧
    (regexCompile pattern = none →
      CacheManager.deletePattern regexCompile s pattern = Except.error ()) :=
  ⟨get_wf hwf key now, set_wf hwf key data ttl now2, delete_wf hwf key,
   evictExpired_wf hwf now3, clear_wf s, rfl, rfl,
   fun test hc =>
     ⟨_, deletePattern_compiles hc s,
      deletePattern_ok_wf hwf regexCompile pattern _ (deletePattern_compiles hc s)⟩,
   fun hc => deletePattern_compile_fails hc s⟩

/-- C8 witness: instantiation of the amended no-throw theorem on a concrete
state and concrete arguments, with the concrete `RegExp` stand-in and a
pattern it compiles. -/
theorem c8_no_throw_witness :
    (CacheState.init 100).wf ∧
    (((CacheManager.get (CacheState.init 100) "k" 5).2).wf ∧
     ((CacheManager.set (CacheState.init 100) "k" (JsValue.num 1) 10 0).2).wf ∧
     ((CacheManager.delete (CacheState.init 100) "k").2).wf ∧
     ((CacheManager.evictExpired (CacheState.init 100) 7).2).wf ∧
     (CacheManager.clear (CacheState.init 100)).wf ∧
     CacheManager.generateKey "stats" [("user", JsValue.str "alice")] =
       "stats" ++ ":" ++ jsonStringify
         (JsValue.obj (CacheManager.sortParams [("user", JsValue.str "alice")])) ∧
     (CacheManager.getStats (CacheState.init 100)).currentSize =
       (CacheState.init 100).currentSize ∧
     (∀ test : String → Bool, witnessRegexCompile "stats" = some test →
       ∃ r, CacheManager.deletePattern witnessRegexCompile (CacheState.init 100) "stats" =
         Except.ok r ∧ r.2.wf) ∧
     (witnessRegexCompile "stats" = none →
       CacheManager.deletePattern witnessRegexCompile (CacheState.init 100) "stats" =
         Except.error ())) :=
  ⟨by decide,
   c8_no_throw (CacheState.init 100) (by decide) "k" (JsValue.num 1) 10 5 0 7
     witnessRegexCompile "stats" "stats" [("user", JsValue.str "alice")]⟩

/-! ## Claims C5-C7 -/

/-- C5 counterexample: the JS-falsy (but JSON-serializable) number `0` is
mapped by `compress` to an envelope with `data = null`, so
`decompress (compress 0 true)` returns `null`, not `0`. -/
theorem c5_roundtrip_counterexample :
    (DataCompressor.decompress witnessPlatform CompressorStats.init
      (DataCompressor.compress witnessPlatform CompressorStats.init
        (JsValue.num 0) true).2).2 ≠ Except.ok (JsValue.num 0) := by
  intro h
  have h2 : JsValue.null = JsValue.num 0 :=
    Except.ok.inj (show Except.ok JsValue.null = Except.ok (JsValue.num 0) from h)
  exact JsValue.noConfusion h2

/-- C5 (amended): for every JS-truthy JSON-serializable value, and under the
platform contracts — base64 and gzip invert on the value's serialization and
`JSON.parse` inverts `JSON.stringify` on it — `decompress (compress data
true)` returns the original value. (JS-falsy values `0`, `false` and `""`
are collapsed to `null` by `compress`'s falsy guard; see the
counterexample.) -/
theorem c5_roundtrip (rt : JsPlatform) (st st' : CompressorStats) (data : JsValue)
    (htruthy : jsTruthy data = true)
    (hb64 : rt.b64dec (rt.b64enc (rt.gzipBytes (jsonStringify data))) =
      some (rt.gzipBytes (jsonStringify data)))
    (hgz : rt.gunzipBytes (rt.gzipBytes (jsonStringify data)) =
      some (jsonStringify data))
    (hparse : rt.jsonParse (jsonStringify data) = some data) :
    (DataCompressor.decompress rt st'
      (DataCompressor.compress rt st data true).2).2 = Except.ok data := by
  have hc : (DataCompressor.compress rt st data true).2 =
      { compressed := true,
        data := JsValue.str (rt.b64enc (rt.gzipBytes (jsonStringify data))),
        originalSize := some (utf8ByteLength (jsonStringify data)),
        compressedSize := some (rt.gzipBytes (jsonStringify data)).length,
        compressionRatio := some ((utf8ByteLength (jsonStringify data) : Rat) /
          ((rt.gzipBytes (jsonStringify data)).length : Rat)) } := by
    simp [DataCompressor.compress, htruthy]
  rw [hc]
  unfold DataCompressor.decompress
  rw [if_neg (by simp)]
  dsimp only
  simp only [hb64, hgz, hparse]

/-- C5 witness: the amended round trip, instantiated at the truthy value
`[]` on the concrete witness platform. -/
theorem c5_roundtrip_witness :
    jsTruthy (JsValue.arr []) = true ∧
    (DataCompressor.decompress witnessPlatform CompressorStats.init
      (DataCompressor.compress witnessPlatform CompressorStats.init
        (JsValue.arr []) true).2).2 = Except.ok (JsValue.arr []) :=
  ⟨rfl, c5_roundtrip witnessPlatform CompressorStats.init CompressorStats.init
    (JsValue.arr []) rfl rfl rfl rfl⟩

/-- C6 counterexample: `false` serializes to 5 bytes (below the 1024-byte
threshold), yet `compress(false, false)` returns an envelope whose `data`
field is `null`, not the original input. -/
theorem c6_small_skip_counterexample :
    utf8ByteLength (jsonStringify (JsValue.bool false)) < 1024 ∧
    (DataCompressor.compress witnessPlatform CompressorStats.init
      (JsValue.bool false) false).2.compressed = false ∧
    (DataCompressor.compress witnessPlatform CompressorStats.init
      (JsValue.bool false) false).2.data ≠ JsValue.bool false := by
  refine ⟨by decide, rfl, ?_⟩
  intro h
  exact JsValue.noConfusion (show JsValue.null = JsValue.bool false from h)

/-- C6 (amended): for every JS-truthy value whose serialization is below the
1024-byte threshold, `compress(data, false)` returns `compressed = false`
with the original data unchanged (and size metadata equal to the original
size, ratio 1). JS-falsy inputs are instead collapsed to `null` by the falsy
guard; see the counterexample. -/
theorem c6_small_skip (rt : JsPlatform) (st : CompressorStats) (data : JsValue)
    (htruthy : jsTruthy data = true)
    (hsmall : utf8ByteLength (jsonStringify data) < minCompressionSize) :
    (DataCompressor.compress rt st data false).2 =
      { compressed := false, data := data,
        originalSize := some (utf8ByteLength (jsonStringify data)),
        compressedSize := some (utf8ByteLength (jsonStringify data)),
        compressionRatio := some 1 } := by
  unfold DataCompressor.compress
  rw [if_neg (by rw [htruthy]; simp)]
  rw [if_pos ⟨rfl, hsmall⟩]

/-- C6 witness: the amended skip-threshold behaviour at the 3-byte truthy
value `"a"`. -/
theorem c6_small_skip_witness :
    jsTruthy (JsValue.str "a") = true ∧
    utf8ByteLength (jsonStringify (JsValue.str "a")) < minCompressionSize ∧
    (DataCompressor.compress witnessPlatform CompressorStats.init
      (JsValue.str "a") false).2 =
      { compressed := false, data := JsValue.str "a",
        originalSize := some (utf8ByteLength (jsonStringify (JsValue.str "a"))),
        compressedSize := some (utf8ByteLength (jsonStringify (JsValue.str "a"))),
        compressionRatio := some 1 } :=
  ⟨rfl, by decide,
   c6_small_skip witnessPlatform CompressorStats.init (JsValue.str "a") rfl (by decide)⟩

/-- C7 counterexample: a small truthy payload (`"a"`, 3 serialized bytes)
with `forceCompress = false` takes the size-threshold early return: the call
reports `compressed = false` and leaves the cumulative statistics exactly as
they were (total bytes in stays 0 instead of growing by 3). -/
theorem c7_stats_counterexample :
    utf8ByteLength (jsonStringify (JsValue.str "a")) = 3 ∧
    (DataCompressor.compress witnessPlatform CompressorStats.init
      (JsValue.str "a") false).2.compressed = false ∧
    (DataCompressor.compress witnessPlatform CompressorStats.init
      (JsValue.str "a") false).1 = CompressorStats.init :=
  ⟨rfl, rfl, rfl⟩

/-- C7 (amended): `compress` updates the cumulative statistics exactly on the
calls that actually compress — when the result has `compressed = true`, the
`compressed` counter is incremented and the original/compressed byte totals
grow by this call's sizes; when the result has `compressed = false` (falsy
guard, size threshold, or poor-ratio bailout), the statistics are returned
unchanged. -/
theorem c7_stats (rt : JsPlatform) (st : CompressorStats) (data : JsValue)
    (force : Bool) :
    ((DataCompressor.compress rt st data force).2.compressed = true →
      (DataCompressor.compress rt st data force).1 =
        { compressed := st.compressed + 1, decompressed := st.decompressed,
          totalOriginalSize := st.totalOriginalSize + utf8ByteLength (jsonStringify data),
          totalCompressedSize :=
            st.totalCompressedSize + (rt.gzipBytes (jsonStringify data)).length }) ∧
    ((DataCompressor.compress rt st data force).2.compressed = false →
      (DataCompressor.compress rt st data force).1 = st) := by
  simp only [DataCompressor.compress]
  split_ifs <;>
    first
    | exact ⟨(fun h => nomatch h), fun _ => rfl⟩
    | exact ⟨(fun _ => rfl), fun h => nomatch h⟩

/-- C7 witness: the amended statistics behaviour at the small payload `"a"`
(the uncompressed branch, statistics unchanged). -/
theorem c7_stats_witness :
    (DataCompressor.compress witnessPlatform CompressorStats.init
      (JsValue.str "a") false).2.compressed = false ∧
    (DataCompressor.compress witnessPlatform CompressorStats.init
      (JsValue.str "a") false).1 = CompressorStats.init :=
  ⟨rfl, (c7_stats witnessPlatform CompressorStats.init (JsValue.str "a") false).2 rfl⟩

/-! ## Claim C9 -/

theorem addBundleInfo_get_non_text (banner : String) :
    ∀ (l : List HtmlItem) (i : Nat) (it : HtmlItem),
      l[i]? = some it → (∀ s, it ≠ HtmlItem.text s) →
      (HtmlBundler.addBundleInfo banner l)[i]? = some it := by
  intro l
  induction l with
  | nil => intro i it h _; simp at h
  | cons a rest ih =>
      intro i it h hnt
      cases i with
      | zero =>
          have ha : a = it := by simpa using h
          cases a with
          | text s => exact absurd ha.symm (hnt s)
          | cssLink href tag => simp [HtmlBundler.addBundleInfo, ha]
          | scriptSrcTag src tag => simp [HtmlBundler.addBundleInfo, ha]
          | imgTag src tag => simp [HtmlBundler.addBundleInfo, ha]
      | succ n =>
          have h' : rest[n]? = some it := by simpa using h
          cases a with
          | text s =>
              by_cases hs : strHasSubstr s "<head>"
              · simp [HtmlBundler.addBundleInfo, hs, h']
              · simp [HtmlBundler.addBundleInfo, hs]
                exact ih n it h' hnt
          | cssLink href tag =>
              simp [HtmlBundler.addBundleInfo]
              exact ih n it h' hnt
          | scriptSrcTag src tag =>
              simp [HtmlBundler.addBundleInfo]
              exact ih n it h' hnt
          | imgTag src tag =>
              simp [HtmlBundler.addBundleInfo]
              exact ih n it h' hnt

theorem processHtml_get_preserved (fsRead : String → Option String)
    (fsReadBytes : String → Option (List Nat)) (b64enc : List Nat → String)
    (opts : BundlerOptions) (nowStr : String) (doc : List HtmlItem)
    (i : Nat) (it : HtmlItem) (hget : doc[i]? = some it)
    (h1 : HtmlBundler.processRefItem fsRead opts it = it)
    (h2 : HtmlBundler.processImgItem fsReadBytes b64enc it = it)
    (h3 : HtmlBundler.minifyTextItem it = it)
    (hnt : ∀ s, it ≠ HtmlItem.text s) :
    (HtmlBundler.processHtml fsRead fsReadBytes b64enc opts nowStr doc)[i]? =
      some it := by
  have g1 : (doc.map (HtmlBundler.processRefItem fsRead opts))[i]? = some it := by
    rw [List.getElem?_map, hget]
    simp [h1]
  have g2 : ∀ (l : List HtmlItem), l[i]? = some it →
      (if opts.compressImages then
        l.map (HtmlBundler.processImgItem fsReadBytes b64enc) else l)[i]? = some it := by
    intro l hl
    split
    · rw [List.getElem?_map, hl]
      simp [h2]
    · exact hl
  have g3 : ∀ (l : List HtmlItem), l[i]? = some it →
      (if opts.minifyHtml then l.map HtmlBundler.minifyTextItem else l)[i]? =
        some it := by
    intro l hl
    split
    · rw [List.getElem?_map, hl]
      simp [h3]
    · exact hl
  unfold HtmlBundler.processHtml
  exact addBundleInfo_get_non_text _ _ i it (g3 _ (g2 _ g1)) hnt

/-- C9: per-file inlining failures degrade gracefully and only an entry read
failure is fatal. When the entry HTML read fails the error propagates out of
`createBundle`; when the entry is readable the bundle succeeds, and every
local stylesheet, script or image reference whose file read fails is left as
its original unmodified tag at its position in the output document. -/
theorem c9_bundler_graceful (fsRead : String → Option String)
    (fsReadBytes : String → Option (List Nat)) (b64enc : List Nat → String)
    (opts : BundlerOptions) (nowStr : String) (doc : List HtmlItem) :
    HtmlBundler.createBundle fsRead fsReadBytes b64enc opts nowStr none =
      Except.error () ∧
    HtmlBundler.createBundle fsRead fsReadBytes b64enc opts nowStr (some doc) =
      Except.ok (HtmlBundler.processHtml fsRead fsReadBytes b64enc opts nowStr doc) ∧
    (∀ (i : Nat) (href tag : String),
      doc[i]? = some (HtmlItem.cssLink href tag) →
      strStartsWith href "http" = false → fsRead href = none →
      (HtmlBundler.processHtml fsRead fsReadBytes b64enc opts nowStr doc)[i]? =
        some (HtmlItem.cssLink href tag)) ∧
    (∀ (i : Nat) (src tag : String),
      doc[i]? = some (HtmlItem.scriptSrcTag src tag) →
      strStartsWith src "http" = false → fsRead src = none →
      (HtmlBundler.processHtml fsRead fsReadBytes b64enc opts nowStr doc)[i]? =
        some (HtmlItem.scriptSrcTag src tag)) ∧
    (∀ (i : Nat) (src tag : String),
      doc[i]? = some (HtmlItem.imgTag src tag) →
      strStartsWith src "http" = false → strStartsWith src "data:" = false →
      fsReadBytes src = none →
      (HtmlBundler.processHtml fsRead fsReadBytes b64enc opts nowStr doc)[i]? =
        some (HtmlItem.imgTag src tag)) := by
  refine ⟨rfl, rfl, ?_, ?_, ?_⟩
  · intro i href tag hget hhttp hfs
    refine processHtml_get_preserved fsRead fsReadBytes b64enc opts nowStr doc i _ hget
      ?_ rfl rfl (fun s h => nomatch h)
    simp [HtmlBundler.processRefItem, HtmlBundler.inlineCss, hhttp, hfs]
  · intro i src tag hget hhttp hfs
    refine processHtml_get_preserved fsRead fsReadBytes b64enc opts nowStr doc i _ hget
      ?_ rfl rfl (fun s h => nomatch h)
    simp [HtmlBundler.processRefItem, HtmlBundler.inlineJs, hhttp, hfs]
  · intro i src tag hget hhttp hdata hfs
    refine processHtml_get_preserved fsRead fsReadBytes b64enc opts nowStr doc i _ hget
      rfl ?_ rfl (fun s h => nomatch h)
    simp [HtmlBundler.processImgItem, HtmlBundler.inlineImage, hhttp, hdata, hfs]

/-- C9 witness: on an empty filesystem the entry read failure propagates as
the error, while on a present entry document the failing stylesheet, script
and image references are kept verbatim at their positions. -/
theorem c9_bundler_graceful_witness :
    HtmlBundler.createBundle (fun _ => none) (fun _ => none) (fun _ => "")
      HtmlBundler.defaultOptions "2024-01-01" none = Except.error () ∧
    (HtmlBundler.processHtml (fun _ => none) (fun _ => none) (fun _ => "")
      HtmlBundler.defaultOptions "2024-01-01"
      [HtmlItem.text "<head>",
       HtmlItem.cssLink "style.css" "<link rel=\"stylesheet\" href=\"style.css\">",
       HtmlItem.scriptSrcTag "app.js" "<script src=\"app.js\"></script>",
       HtmlItem.imgTag "logo.png" "<img src=\"logo.png\">"])[1]? =
      some (HtmlItem.cssLink "style.css" "<link rel=\"stylesheet\" href=\"style.css\">") ∧
    (HtmlBundler.processHtml (fun _ => none) (fun _ => none) (fun _ => "")
      HtmlBundler.defaultOptions "2024-01-01"
      [HtmlItem.text "<head>",
       HtmlItem.cssLink "style.css" "<link rel=\"stylesheet\" href=\"style.css\">",
       HtmlItem.scriptSrcTag "app.js" "<script src=\"app.js\"></script>",
       HtmlItem.imgTag "logo.png" "<img src=\"logo.png\">"])[3]? =
      some (HtmlItem.imgTag "logo.png" "<img src=\"logo.png\">") :=
  ⟨(c9_bundler_graceful (fun _ => none) (fun _ => none) (fun _ => "")
      HtmlBundler.defaultOptions "2024-01-01" []).1,
   (c9_bundler_graceful (fun _ => none) (fun _ => none) (fun _ => "")
      HtmlBundler.defaultOptions "2024-01-01"
      [HtmlItem.text "<head>",
       HtmlItem.cssLink "style.css" "<link rel=\"stylesheet\" href=\"style.css\">",
       HtmlItem.scriptSrcTag "app.js" "<script src=\"app.js\"></script>",
       HtmlItem.imgTag "logo.png" "<img src=\"logo.png\">"]).2.2.1 1 "style.css"
      "<link rel=\"stylesheet\" href=\"style.css\">" rfl rfl rfl,
   (c9_bundler_graceful (fun _ => none) (fun _ => none) (fun _ => "")
      HtmlBundler.defaultOptions "2024-01-01"
      [HtmlItem.text "<head>",
       HtmlItem.cssLink "style.css" "<link rel=\"stylesheet\" href=\"style.css\">",
       HtmlItem.scriptSrcTag "app.js" "<script src=\"app.js\"></script>",
       HtmlItem.imgTag "logo.png" "<img src=\"logo.png\">"]).2.2.2.2 3 "logo.png"
      "<img src=\"logo.png\">" rfl rfl rfl rfl⟩

/-! ## Claim C10 -/

theorem statsStep_buckets (acc : DataProcessor.StatsAcc) (pr : PRRecord) :
    (DataProcessor.statsStep acc pr).open_prs =
      acc.open_prs + (if pr.status = some "open" then 1 else 0) ∧
    (DataProcessor.statsStep acc pr).merged_prs =
      acc.merged_prs +
        (if pr.status = some "open" then 0
         else if pr.status = some "merged" then 1 else 0) ∧
    (DataProcessor.statsStep acc pr).closed_prs =
      acc.closed_prs +
        (if pr.status = some "open" then 0
         else if pr.status = some "merged" then 0 else 1) := by
  by_cases ho : pr.status = some "open"
  · simp [DataProcessor.statsStep, ho]
  · by_cases hm : pr.status = some "merged"
    · simp [DataProcessor.statsStep, ho, hm]
    · simp [DataProcessor.statsStep, ho, hm]

theorem statsLoop_buckets :
    ∀ (l : List PRRecord) (acc : DataProcessor.StatsAcc),
      (l.foldl DataProcessor.statsStep acc).open_prs =
        acc.open_prs + l.countP (fun pr => decide (pr.status = some "open")) ∧
      (l.foldl DataProcessor.statsStep acc).merged_prs =
        acc.merged_prs + l.countP (fun pr =>
          !decide (pr.status = some "open") && decide (pr.status = some "merged")) ∧
      (l.foldl DataProcessor.statsStep acc).closed_prs =
        acc.closed_prs + l.countP (fun pr =>
          !decide (pr.status = some "open") && !decide (pr.status = some "merged")) := by
  intro l
  induction l with
  | nil => intro acc; simp
  | cons pr rest ih =>
      intro acc
      obtain ⟨h1, h2, h3⟩ := statsStep_buckets acc pr
      obtain ⟨g1, g2, g3⟩ := ih (DataProcessor.statsStep acc pr)
      refine ⟨?_, ?_, ?_⟩ <;>
        simp only [List.foldl_cons, List.countP_cons, g1, g2, g3, h1, h2, h3] <;>
        by_cases ho : pr.status = some "open" <;>
          (by_cases hm : pr.status = some "merged" <;> simp [ho, hm] <;> omega)

theorem countP_status_partition (prDetails : List PRRecord) :
    prDetails.countP (fun pr => decide (pr.status = some "open")) +
      prDetails.countP (fun pr =>
        !decide (pr.status = some "open") && decide (pr.status = some "merged")) +
      prDetails.countP (fun pr =>
        !decide (pr.status = some "open") && !decide (pr.status = some "merged")) =
      prDetails.length := by
  induction prDetails with
  | nil => simp
  | cons pr rest ih =>
      simp only [List.countP_cons, List.length_cons]
      by_cases ho : pr.status = some "open" <;>
        by_cases hm : pr.status = some "merged" <;> simp [ho, hm] <;> omega

/-- C10: `calculatePRStatistics` partitions the records over the three
status buckets: `total_prs` equals `open_prs + merged_prs + closed_prs`,
with `open_prs` counting exactly the records with status `open`, `merged_prs`
exactly those with status `merged`, and `closed_prs` exactly the rest —
including records with a missing status. -/
theorem c10_pr_status_partition (prDetails : List PRRecord) :
    (DataProcessor.calculatePRStatistics prDetails).total_prs =
      (DataProcessor.calculatePRStatistics prDetails).open_prs +
        (DataProcessor.calculatePRStatistics prDetails).merged_prs +
        (DataProcessor.calculatePRStatistics prDetails).closed_prs ∧
    (DataProcessor.calculatePRStatistics prDetails).open_prs =
      prDetails.countP (fun pr => decide (pr.status = some "open")) ∧
    (DataProcessor.calculatePRStatistics prDetails).merged_prs =
      prDetails.countP (fun pr => decide (pr.status = some "merged")) ∧
    (DataProcessor.calculatePRStatistics prDetails).closed_prs =
      prDetails.countP (fun pr =>
        !decide (pr.status = some "open") && !decide (pr.status = some "merged")) := by
  obtain ⟨g1, g2, g3⟩ := statsLoop_buckets prDetails
    { open_prs := 0, closed_prs := 0, merged_prs := 0, authors := [],
      repositories := [], totalLifetime := 0, totalComments := 0, totalReviews := 0 }
  simp only [Nat.zero_add] at g1 g2 g3
  have hmerged : prDetails.countP (fun pr =>
        !decide (pr.status = some "open") && decide (pr.status = some "merged")) =
      prDetails.countP (fun pr => decide (pr.status = some "merged")) := by
    apply List.countP_congr
    intro pr _
    by_cases ho : pr.status = some "open"
    · by_cases hm : pr.status = some "merged"
      · rw [ho] at hm
        simp at hm
      · simp [ho, hm]
    · simp [ho]
  simp only [DataProcessor.calculatePRStatistics]
  refine ⟨?_, ?_, ?_, ?_⟩
  · rw [g1, g2, g3]
    exact (countP_status_partition prDetails).symm
  · exact g1
  · rw [g2, hmerged]
  · exact g3
